import Mathlib

/-!
Verification of the contentcheck-3000 content-diff / alignment / sync core.

The definitions below are shallow embeddings of the TypeScript source:
  * `src/lib/alignment` (shipped in `api-rate-limiter.ts` after the doc
    separator): `BlockMeasurement`, `normalizeText`, `computeAlignment`.
  * `src/lib/differ` (`computeDiff`): the aggregation loop over the word-level
    diff parts produced by the external `diff` package.
  * `src/lib/annotator.ts`: tagged-character construction, moved-content
    detection, text-node annotation and block tagging.
  * `SyncPreviewContainer` (listed in `docs/API.md`): the coordinator state
    machine (`tryApplyAlignment`, `handleMessage`, `enableSync`, `disableSync`).

JavaScript strings are modelled as `List Char`, JS numbers for block geometry
as `Int` (the claims only involve integer geometry), `Record<number, number>`
as an insertion-ordered association list with overwrite-on-assign semantics,
and JS `Math.round` on nonnegative rationals as `⌊q + 1/2⌋`.
-/

namespace ContentCheck

/-! ## JS string primitives -/

/-- JS `\s` whitespace class restricted to the ASCII whitespace characters
    (space, tab, newline, carriage return, vertical tab, form feed). -/
def isWs (c : Char) : Bool :=
  c = ' ' || c = '\t' || c = '\n' || c = '\r' || c = '\x0b' || c = '\x0c'

/-- `replace(/\s+/g, ' ')`: collapse every maximal whitespace run to a single
    space.  The boolean flag records whether the previous character was part of
    a whitespace run. -/
def collapseWsAux : Bool → List Char → List Char
  | _, [] => []
  | prevWs, c :: rest =>
    if isWs c then
      if prevWs then collapseWsAux true rest
      else ' ' :: collapseWsAux true rest
    else c :: collapseWsAux false rest

def collapseWs (l : List Char) : List Char := collapseWsAux false l

/-- JS `String.prototype.trim`: drop whitespace from both ends. -/
def jsTrim (l : List Char) : List Char :=
  ((l.dropWhile isWs).reverse.dropWhile isWs).reverse

/-- `text.toLowerCase().replace(/\s+/g, ' ').trim()` — the normalization used
    both by the alignment engine (`normalizeText`) and by the annotator
    (`normalizeForLookup`). -/
def normalizeText (l : List Char) : List Char :=
  jsTrim (collapseWs (l.map Char.toLower))

/-! ## Alignment engine (`computeAlignment`) -/

structure BlockMeasurement where
  idx : Nat
  top : Int
  height : Int
  isShared : Bool
  text : List Char
  deriving Repr, DecidableEq

/-- `Record<number, number>` under repeated `m[k] = v` assignment: an
    insertion-ordered association list where assigning to an existing key
    overwrites in place and assigning to a fresh key appends. -/
def recordSet (m : List (Nat × Int)) (k : Nat) (v : Int) : List (Nat × Int) :=
  if m.any (fun p => p.1 = k) then
    m.map (fun p => if p.1 = k then (k, v) else p)
  else m ++ [(k, v)]

structure AlignmentResult where
  sourceSpacers : List (Nat × Int)
  targetSpacers : List (Nat × Int)
  deriving Repr, DecidableEq

/-- The inner `for (let j = targetSearchStart; ...)` scan: find the first block
    in the remaining target suffix whose normalized text equals `txt`.  The
    cursor `targetSearchStart` of the source is represented by the remaining
    suffix; on a hit we return the matched block together with the suffix just
    past it (`targetSearchStart = j + 1`). -/
def findShared (txt : List Char) :
    List BlockMeasurement → Option (BlockMeasurement × List BlockMeasurement)
  | [] => none
  | tb :: rest =>
    if normalizeText tb.text = txt then some (tb, rest)
    else findShared txt rest

/-- The matching loop of `computeAlignment`: walk the shared source blocks in
    order; skip blocks with empty normalized text; otherwise scan forward in
    the target from the cursor.  A failed scan leaves the cursor (the remaining
    target suffix) unchanged. -/
def matchBlocks :
    List BlockMeasurement → List BlockMeasurement →
    List (BlockMeasurement × BlockMeasurement)
  | [], _ => []
  | sb :: rest, tgt =>
    let sbText := normalizeText sb.text
    if sbText = [] then matchBlocks rest tgt
    else
      match findShared sbText tgt with
      | some (tb, tgtRest) => (sb, tb) :: matchBlocks rest tgtRest
      | none => matchBlocks rest tgt

/-- The spacer loop of `computeAlignment`: one cumulative spacer total per
    side, effective top = measured top + own side's total; the lower effective
    top receives a spacer equal to the difference. -/
def computeSpacers :
    List (BlockMeasurement × BlockMeasurement) → Int → Int →
    List (Nat × Int) → List (Nat × Int) →
    List (Nat × Int) × List (Nat × Int)
  | [], _, _, srcAcc, tgtAcc => (srcAcc, tgtAcc)
  | (sb, tb) :: rest, srcCum, tgtCum, srcAcc, tgtAcc =>
    let effectiveSourceTop := sb.top + srcCum
    let effectiveTargetTop := tb.top + tgtCum
    let diff := effectiveSourceTop - effectiveTargetTop
    if diff > 0 then
      computeSpacers rest srcCum (tgtCum + diff) srcAcc (recordSet tgtAcc tb.idx diff)
    else if diff < 0 then
      computeSpacers rest (srcCum + (-diff)) tgtCum (recordSet srcAcc sb.idx (-diff)) tgtAcc
    else
      computeSpacers rest srcCum tgtCum srcAcc tgtAcc

def computeAlignment (sourceBlocks targetBlocks : List BlockMeasurement) :
    AlignmentResult :=
  if sourceBlocks.isEmpty || targetBlocks.isEmpty then ⟨[], []⟩
  else
    let sharedSource := sourceBlocks.filter (·.isShared)
    let sharedTarget := targetBlocks.filter (·.isShared)
    let matched := matchBlocks sharedSource sharedTarget
    let (s, t) := computeSpacers matched 0 0 [] []
    ⟨s, t⟩

/-! ## Spec-level restatement of the spacer computation (for claim C1)

The spec describes Step 3 of the alignment engine as a left-to-right pass over
the matched pairs carrying one cumulative spacer total per side.  We restate
that description literally as a `foldl` and prove the engine's recursion
refines it. -/

structure SpecAlignState where
  srcTotal : Int
  tgtTotal : Int
  srcSpacers : List (Nat × Int)
  tgtSpacers : List (Nat × Int)
  deriving Repr, DecidableEq

/-- One step of the spec's spacer rule: each side's effective top is its
    measured top plus its side's cumulative total; if the source's effective
    top exceeds the target's, a target spacer equal to the difference is
    recorded at the target block's idx and added to the target's total, and
    symmetrically on the source; equal effective tops record nothing. -/
def specAlignStep (st : SpecAlignState)
    (pr : BlockMeasurement × BlockMeasurement) : SpecAlignState :=
  let sEff := pr.1.top + st.srcTotal
  let tEff := pr.2.top + st.tgtTotal
  if sEff > tEff then
    { st with
      tgtSpacers := recordSet st.tgtSpacers pr.2.idx (sEff - tEff)
      tgtTotal := st.tgtTotal + (sEff - tEff) }
  else if tEff > sEff then
    { st with
      srcSpacers := recordSet st.srcSpacers pr.1.idx (tEff - sEff)
      srcTotal := st.srcTotal + (tEff - sEff) }
  else st

/-- Spec-level spacer computation: fold the per-pair rule over the matched
    pairs in order, both cumulative totals starting at zero. -/
def specAlignSpacers (pairs : List (BlockMeasurement × BlockMeasurement)) :
    List (Nat × Int) × List (Nat × Int) :=
  let fin := pairs.foldl specAlignStep ⟨0, 0, [], []⟩
  (fin.srcSpacers, fin.tgtSpacers)

theorem computeSpacers_eq_foldl
    (pairs : List (BlockMeasurement × BlockMeasurement))
    (sc tc : Int) (sa ta : List (Nat × Int)) :
    computeSpacers pairs sc tc sa ta =
      ((pairs.foldl specAlignStep ⟨sc, tc, sa, ta⟩).srcSpacers,
       (pairs.foldl specAlignStep ⟨sc, tc, sa, ta⟩).tgtSpacers) := by
  induction pairs generalizing sc tc sa ta with
  | nil => rfl
  | cons pr rest ih =>
    obtain ⟨sb, tb⟩ := pr
    simp only [computeSpacers, List.foldl_cons, specAlignStep, neg_sub]
    split_ifs <;>
      first
        | (exfalso; omega)
        | rw [ih]

/-- C1: computeAlignment processes matched pairs in order with one cumulative
spacer total per side, both starting at zero; each pair's effective top is its
measured top plus its side's total; the side with the smaller effective top
receives a spacer equal to the difference, recorded at that block's idx and
added to that side's total; equal effective tops record nothing (this is the
equivalence with the spec-level fold `specAlignSpacers`).  On the concrete
scenario (source A top 0 / B top 50, target A top 0 / B top 120, all shared)
it returns sourceSpacers = {1 ↦ 70} and targetSpacers = {}. -/
theorem computeAlignment_cumulative_spacer_rule :
    (∀ pairs : List (BlockMeasurement × BlockMeasurement),
        computeSpacers pairs 0 0 [] [] = specAlignSpacers pairs) ∧
    computeAlignment
        [⟨0, 0, 50, true, ['A']⟩, ⟨1, 50, 100, true, ['B']⟩]
        [⟨0, 0, 50, true, ['A']⟩, ⟨1, 120, 100, true, ['B']⟩] =
      ⟨[(1, 70)], []⟩ := by
  constructor
  · intro pairs
    exact computeSpacers_eq_foldl pairs 0 0 [] []
  · rfl

/-! ## Forward-only matching properties (claim C2) -/

theorem findShared_spec (txt : List Char) (l : List BlockMeasurement)
    (tb : BlockMeasurement) (rest : List BlockMeasurement)
    (h : findShared txt l = some (tb, rest)) :
    (tb :: rest) <:+ l ∧ normalizeText tb.text = txt := by
  induction l with
  | nil => simp [findShared] at h
  | cons hd tl ih =>
    rw [findShared] at h
    split_ifs at h with hc
    · obtain ⟨rfl, rfl⟩ := Prod.mk.injEq .. ▸ Option.some.injEq .. ▸ h
      exact ⟨List.suffix_refl _, hc⟩
    · obtain ⟨hs, ht⟩ := ih h
      exact ⟨hs.trans (List.suffix_cons hd tl), ht⟩

theorem matchBlocks_fst_sublist (src tgt : List BlockMeasurement) :
    ((matchBlocks src tgt).map Prod.fst).Sublist src := by
  induction src generalizing tgt with
  | nil => simp [matchBlocks]
  | cons sb rest ih =>
    rw [matchBlocks]
    split_ifs with hempty
    · exact (ih tgt).cons sb
    · rcases hfs : findShared (normalizeText sb.text) tgt with _ | ⟨tb, tgtRest⟩
      · exact (ih tgt).cons sb
      · simpa using (ih tgtRest).cons₂ sb

theorem matchBlocks_snd_sublist (src tgt : List BlockMeasurement) :
    ((matchBlocks src tgt).map Prod.snd).Sublist tgt := by
  induction src generalizing tgt with
  | nil => simp [matchBlocks]
  | cons sb rest ih =>
    rw [matchBlocks]
    split_ifs with hempty
    · exact ih tgt
    · rcases hfs : findShared (normalizeText sb.text) tgt with _ | ⟨tb, tgtRest⟩
      · exact ih tgt
      · have hsuf := (findShared_spec _ _ _ _ hfs).1
        simp only [List.map_cons]
        exact ((ih tgtRest).cons₂ tb).trans hsuf.sublist

theorem matchBlocks_text_eq (src tgt : List BlockMeasurement)
    (pr : BlockMeasurement × BlockMeasurement) (h : pr ∈ matchBlocks src tgt) :
    normalizeText pr.1.text = normalizeText pr.2.text ∧
    normalizeText pr.1.text ≠ [] := by
  induction src generalizing tgt with
  | nil => simp [matchBlocks] at h
  | cons sb rest ih =>
    rw [matchBlocks] at h
    split_ifs at h with hempty
    · exact ih tgt h
    · rcases hfs : findShared (normalizeText sb.text) tgt with _ | ⟨tb, tgtRest⟩
      · rw [hfs] at h
        exact ih tgt h
      · rw [hfs] at h
        rcases List.mem_cons.mp h with he | hm
        · subst he
          exact ⟨((findShared_spec _ _ _ _ hfs).2).symm, hempty⟩
        · exact ih tgtRest hm

/-- C2: computeAlignment's matcher pairs shared blocks by normalized text with
a forward-only scan: the matched source components form an (order-preserving)
sublist of the shared source blocks and the matched target components a
sublist of the shared target blocks (the cursor only advances, blocks are
never reused or revisited), every matched pair has identical, non-empty
normalized text, and on the concrete source texts [A, B, C] versus target
texts [A, X, B, C] the matched pairs are A↔A, B↔B, C↔C — B is never paired
with X. -/
theorem computeAlignment_forward_text_matching :
    (∀ src tgt : List BlockMeasurement,
        ((matchBlocks src tgt).map Prod.fst).Sublist src ∧
        ((matchBlocks src tgt).map Prod.snd).Sublist tgt ∧
        ∀ pr ∈ matchBlocks src tgt,
          normalizeText pr.1.text = normalizeText pr.2.text ∧
          normalizeText pr.1.text ≠ []) ∧
    matchBlocks
        [⟨0, 0, 0, true, ['A']⟩, ⟨1, 50, 0, true, ['B']⟩,
         ⟨2, 100, 0, true, ['C']⟩]
        [⟨0, 0, 0, true, ['A']⟩, ⟨1, 50, 0, true, ['X']⟩,
         ⟨2, 100, 0, true, ['B']⟩, ⟨3, 150, 0, true, ['C']⟩] =
      [(⟨0, 0, 0, true, ['A']⟩, ⟨0, 0, 0, true, ['A']⟩),
       (⟨1, 50, 0, true, ['B']⟩, ⟨2, 100, 0, true, ['B']⟩),
       (⟨2, 100, 0, true, ['C']⟩, ⟨3, 150, 0, true, ['C']⟩)] := by
  refine ⟨fun src tgt => ⟨matchBlocks_fst_sublist src tgt,
    matchBlocks_snd_sublist src tgt, matchBlocks_text_eq src tgt⟩, ?_⟩
  rfl

/-- Witness for C2: the universally quantified part instantiated at the
concrete scenario and its first matched pair. -/
theorem computeAlignment_forward_text_matching_witness :
    normalizeText (⟨1, 50, 0, true, ['B']⟩ : BlockMeasurement).text =
      normalizeText (⟨2, 100, 0, true, ['B']⟩ : BlockMeasurement).text ∧
    normalizeText (⟨1, 50, 0, true, ['B']⟩ : BlockMeasurement).text ≠ [] := by
  have h := computeAlignment_forward_text_matching
  have hmem :
      ((⟨1, 50, 0, true, ['B']⟩ : BlockMeasurement),
       (⟨2, 100, 0, true, ['B']⟩ : BlockMeasurement)) ∈
        matchBlocks
          [⟨0, 0, 0, true, ['A']⟩, ⟨1, 50, 0, true, ['B']⟩,
           ⟨2, 100, 0, true, ['C']⟩]
          [⟨0, 0, 0, true, ['A']⟩, ⟨1, 50, 0, true, ['X']⟩,
           ⟨2, 100, 0, true, ['B']⟩, ⟨3, 150, 0, true, ['C']⟩] := by
    rw [h.2]
    simp
  exact (h.1 _ _).2.2 _ hmem

/-! ## Height independence (claim C10) -/

/-- Forget the `height` field (the only field `computeAlignment` never reads). -/
def eraseHeight (b : BlockMeasurement) : BlockMeasurement :=
  { b with height := 0 }

@[simp] theorem eraseHeight_idx (b : BlockMeasurement) :
    (eraseHeight b).idx = b.idx := rfl

@[simp] theorem eraseHeight_top (b : BlockMeasurement) :
    (eraseHeight b).top = b.top := rfl

@[simp] theorem eraseHeight_isShared (b : BlockMeasurement) :
    (eraseHeight b).isShared = b.isShared := rfl

@[simp] theorem eraseHeight_text (b : BlockMeasurement) :
    (eraseHeight b).text = b.text := rfl

theorem findShared_eraseHeight (txt : List Char) (l : List BlockMeasurement) :
    findShared txt (l.map eraseHeight) =
      (findShared txt l).map
        (fun pr => (eraseHeight pr.1, pr.2.map eraseHeight)) := by
  induction l with
  | nil => rfl
  | cons hd tl ih =>
    simp only [List.map_cons, findShared, eraseHeight_text]
    split_ifs with h
    · rfl
    · exact ih

theorem matchBlocks_eraseHeight (src tgt : List BlockMeasurement) :
    matchBlocks (src.map eraseHeight) (tgt.map eraseHeight) =
      (matchBlocks src tgt).map (Prod.map eraseHeight eraseHeight) := by
  induction src generalizing tgt with
  | nil => rfl
  | cons sb rest ih =>
    simp only [List.map_cons]
    rw [matchBlocks, matchBlocks]
    simp only [eraseHeight_text]
    split_ifs with h
    · exact ih tgt
    · rw [findShared_eraseHeight]
      rcases hfs : findShared (normalizeText sb.text) tgt with _ | ⟨tb, tgtRest⟩
      · simpa using ih tgt
      · simp [ih tgtRest]

theorem computeSpacers_eraseHeight
    (pairs : List (BlockMeasurement × BlockMeasurement))
    (sc tc : Int) (sa ta : List (Nat × Int)) :
    computeSpacers (pairs.map (Prod.map eraseHeight eraseHeight)) sc tc sa ta =
      computeSpacers pairs sc tc sa ta := by
  induction pairs generalizing sc tc sa ta with
  | nil => rfl
  | cons pr rest ih =>
    obtain ⟨sb, tb⟩ := pr
    simp only [List.map_cons, Prod.map, computeSpacers, eraseHeight_top,
      eraseHeight_idx]
    split_ifs <;> exact ih ..

theorem filter_isShared_eraseHeight (l : List BlockMeasurement) :
    (l.map eraseHeight).filter (·.isShared) =
      (l.filter (·.isShared)).map eraseHeight := by
  induction l with
  | nil => rfl
  | cons hd tl ih =>
    simp only [List.map_cons, List.filter_cons, eraseHeight_isShared]
    split_ifs <;> simp [ih]

theorem isEmpty_map_eraseHeight (l : List BlockMeasurement) :
    (l.map eraseHeight).isEmpty = l.isEmpty := by
  cases l <;> rfl

theorem computeAlignment_eraseHeight (s t : List BlockMeasurement) :
    computeAlignment (s.map eraseHeight) (t.map eraseHeight) =
      computeAlignment s t := by
  rw [computeAlignment, computeAlignment, isEmpty_map_eraseHeight,
    isEmpty_map_eraseHeight]
  split_ifs with h
  · rfl
  · simp only [filter_isShared_eraseHeight, matchBlocks_eraseHeight,
      computeSpacers_eraseHeight]

/-- Blocks agreeing on everything `computeAlignment` can observe: same idx,
    measured top, shared flag and text; heights may differ arbitrarily. -/
def agreesExceptHeight (a b : BlockMeasurement) : Prop :=
  a.idx = b.idx ∧ a.top = b.top ∧ a.isShared = b.isShared ∧ a.text = b.text

theorem agreesExceptHeight_map (s s' : List BlockMeasurement)
    (h : List.Forall₂ agreesExceptHeight s s') :
    s.map eraseHeight = s'.map eraseHeight := by
  induction h with
  | nil => rfl
  | @cons a b la lb hab htl ih =>
    obtain ⟨h1, h2, h3, h4⟩ := hab
    cases a
    cases b
    simp_all [eraseHeight]

/-- C10: computeAlignment's result is independent of the height field: for any
two pairs of block lists that agree pointwise on idx, top, isShared and text
and differ only in heights, the returned spacer maps are identical. -/
theorem computeAlignment_height_independent
    (s s' t t' : List BlockMeasurement)
    (hs : List.Forall₂ agreesExceptHeight s s')
    (ht : List.Forall₂ agreesExceptHeight t t') :
    computeAlignment s t = computeAlignment s' t' := by
  rw [← computeAlignment_eraseHeight s t, agreesExceptHeight_map s s' hs,
    agreesExceptHeight_map t t' ht, computeAlignment_eraseHeight]

/-- Witness for C10: two singleton lists differing only in height yield the
same alignment result. -/
theorem computeAlignment_height_independent_witness :
    List.Forall₂ agreesExceptHeight
      [(⟨0, 0, 50, true, ['A']⟩ : BlockMeasurement)]
      [(⟨0, 0, 99, true, ['A']⟩ : BlockMeasurement)] ∧
    List.Forall₂ agreesExceptHeight
      [(⟨0, 10, 1, true, ['A']⟩ : BlockMeasurement)]
      [(⟨0, 10, 2, true, ['A']⟩ : BlockMeasurement)] ∧
    computeAlignment [⟨0, 0, 50, true, ['A']⟩] [⟨0, 10, 1, true, ['A']⟩] =
      computeAlignment [⟨0, 0, 99, true, ['A']⟩] [⟨0, 10, 2, true, ['A']⟩] := by
  have h1 : List.Forall₂ agreesExceptHeight
      [(⟨0, 0, 50, true, ['A']⟩ : BlockMeasurement)]
      [(⟨0, 0, 99, true, ['A']⟩ : BlockMeasurement)] := by
    refine List.Forall₂.cons ?_ List.Forall₂.nil
    exact ⟨rfl, rfl, rfl, rfl⟩
  have h2 : List.Forall₂ agreesExceptHeight
      [(⟨0, 10, 1, true, ['A']⟩ : BlockMeasurement)]
      [(⟨0, 10, 2, true, ['A']⟩ : BlockMeasurement)] := by
    refine List.Forall₂.cons ?_ List.Forall₂.nil
    exact ⟨rfl, rfl, rfl, rfl⟩
  exact ⟨h1, h2, computeAlignment_height_independent _ _ _ _ h1 h2⟩

/-! ## TextDiffer (`computeDiff` in src/lib/differ, `unnamed/part_008`)

`diffWords` is the external `diff` npm package; `computeDiff` feeds its output
through the aggregation loop modelled below, so the loop is embedded over an
arbitrary raw part list. -/

inductive ChangeType
  | equal
  | added
  | removed
  deriving Repr, DecidableEq

structure DiffChange where
  type : ChangeType
  value : List Char
  deriving Repr, DecidableEq

/-- One entry of the array returned by the external `diffWords`. -/
structure DiffPart where
  value : List Char
  added : Bool
  removed : Bool
  deriving Repr, DecidableEq

/-- `part.value.split(/\s+/).filter(Boolean).length`: the number of maximal
    non-whitespace runs.  The flag records whether we are inside a run. -/
def countWordsAux : Bool → List Char → Nat
  | _, [] => 0
  | inWord, c :: rest =>
    if isWs c then countWordsAux false rest
    else if inWord then countWordsAux true rest
    else 1 + countWordsAux true rest

def countWords (l : List Char) : Nat := countWordsAux false l

/-- JS `Math.round` on a (nonnegative) rational: round half away from zero
    upwards. -/
def jsRound (q : ℚ) : ℤ := ⌊q + 1 / 2⌋

structure TextDiffResult where
  similarity : ℚ
  changes : List DiffChange
  deriving Repr, DecidableEq

/-- The `for (const part of rawDiff)` loop of `computeDiff`, returning
    `(changes, unchangedWords, sourceWordCount, targetWordCount)`.  The JS
    loop appends to `changes` left to right; recursing on the head and
    consing produces the identical list and the identical counter sums. -/
def diffLoop : List DiffPart → List DiffChange × Nat × Nat × Nat
  | [] => ([], 0, 0, 0)
  | part :: rest =>
    let wordCount := countWords part.value
    let r := diffLoop rest
    if part.added then
      (⟨.added, part.value⟩ :: r.1, r.2.1, r.2.2.1, r.2.2.2 + wordCount)
    else if part.removed then
      (⟨.removed, part.value⟩ :: r.1, r.2.1, r.2.2.1 + wordCount, r.2.2.2)
    else
      (⟨.equal, part.value⟩ :: r.1, r.2.1 + wordCount, r.2.2.1 + wordCount,
        r.2.2.2 + wordCount)

/-- `computeDiff` after the external word diff: aggregate counts and derive
    the similarity score. -/
def computeDiffCore (rawDiff : List DiffPart) : TextDiffResult :=
  let st := diffLoop rawDiff
  let maxWordCount := max st.2.2.1 st.2.2.2
  let similarity : ℚ :=
    if maxWordCount = 0 then 100
    else ((st.2.1 : ℚ) / (maxWordCount : ℚ)) * 100
  ⟨(jsRound (similarity * 10) : ℚ) / 10, st.1⟩

/-- Total word count of the changes of one type. -/
def wordsOfType (ty : ChangeType) : List DiffChange → Nat
  | [] => 0
  | c :: rest =>
    (if c.type = ty then countWords c.value else 0) + wordsOfType ty rest

theorem diffLoop_counts (parts : List DiffPart) :
    (diffLoop parts).2.1 = wordsOfType .equal (diffLoop parts).1 ∧
    (diffLoop parts).2.2.1 =
      wordsOfType .equal (diffLoop parts).1 +
        wordsOfType .removed (diffLoop parts).1 ∧
    (diffLoop parts).2.2.2 =
      wordsOfType .equal (diffLoop parts).1 +
        wordsOfType .added (diffLoop parts).1 := by
  induction parts with
  | nil => simp [diffLoop, wordsOfType]
  | cons p rest ih =>
    obtain ⟨ih1, ih2, ih3⟩ := ih
    simp only [diffLoop]
    split_ifs with h1 h2 <;> simp_all [wordsOfType] <;> omega

/-- C3: computeDiff's similarity equals unchangedWords divided by the maximum
of source and target word counts, times 100, rounded to one decimal place —
where unchangedWords counts words in equal changes, sourceWordCount counts
words in equal plus removed changes, and targetWordCount counts words in
equal plus added changes of the returned change list — and equals 100 when
the maximum word count is zero.  Stated for every raw part list the external
word differ can produce.  The closed conjunct checks a concrete run
(2 unchanged words out of max(3,4)=4 gives 50.0). -/
theorem computeDiff_similarity_formula :
    (∀ parts : List DiffPart,
        (computeDiffCore parts).similarity =
          (let u := wordsOfType .equal (computeDiffCore parts).changes
           let s := u + wordsOfType .removed (computeDiffCore parts).changes
           let t := u + wordsOfType .added (computeDiffCore parts).changes
           if max s t = 0 then 100
           else (jsRound ((u : ℚ) / ((max s t : ℕ) : ℚ) * 100 * 10) : ℚ) / 10)) ∧
    computeDiffCore
        [⟨['a', ' ', 'b'], false, false⟩, ⟨['c'], false, true⟩,
         ⟨['d', ' ', 'e'], true, false⟩] =
      ⟨50, [⟨.equal, ['a', ' ', 'b']⟩, ⟨.removed, ['c']⟩,
            ⟨.added, ['d', ' ', 'e']⟩]⟩ := by
  constructor
  · intro parts
    obtain ⟨h1, h2, h3⟩ := diffLoop_counts parts
    simp only [computeDiffCore]
    rw [h1, h2, h3]
    split_ifs with h
    · norm_num [jsRound]
    · rfl
  · have hl : diffLoop
        [⟨['a', ' ', 'b'], false, false⟩, ⟨['c'], false, true⟩,
         ⟨['d', ' ', 'e'], true, false⟩] =
        ([⟨.equal, ['a', ' ', 'b']⟩, ⟨.removed, ['c']⟩,
          ⟨.added, ['d', ' ', 'e']⟩], 2, 3, 4) := by
      simp [diffLoop, countWords, countWordsAux, isWs]
    rw [computeDiffCore, hl]
    norm_num [jsRound]

/-! ## Annotator: tagged characters and moved-content detection
(`src/lib/annotator.ts`) -/

inductive HighlightClass
  | migrated
  | notMigrated
  | migratedMoved
  deriving Repr, DecidableEq

structure TaggedChar where
  char : Char
  cssClass : HighlightClass
  deriving Repr, DecidableEq

inductive Side
  | source
  | target
  deriving Repr, DecidableEq

/-- `normalizeForLookup` of the annotator — textually identical to the
    alignment engine's `normalizeText`. -/
def normalizeForLookup (l : List Char) : List Char :=
  jsTrim (collapseWs (l.map Char.toLower))

/-- JS `str.split(' ')` (single-character separator): split at every space;
    always returns at least one (possibly empty) piece. -/
def splitOnSpace : List Char → List (List Char)
  | [] => [[]]
  | c :: rest =>
    let r := splitOnSpace rest
    if c = ' ' then [] :: r
    else (c :: r.headI) :: r.tail

/-- JS `hay.includes(needle)`: contiguous substring test. -/
def jsIncludes : List Char → List Char → Bool
  | [], needle => needle.isEmpty
  | c :: t, needle => needle.isPrefixOf (c :: t) || jsIncludes t needle

/-- `isMovedContent`: a segment counts as moved when its normalized form is at
    least 3 characters, passes the substance threshold (2+ words, or a single
    word of 10+ characters) and occurs in the other side's normalized text. -/
def isMovedContent (segment otherSideNormalized : List Char) : Bool :=
  let normalized := normalizeForLookup segment
  if normalized.length < 3 then false
  else if (splitOnSpace normalized).length < 2 ∧ normalized.length < 10 then false
  else jsIncludes otherSideNormalized normalized

/-- One leftmost match of the paragraph-break regex `/\n\s*\n/` at the head of
    the list: a newline, then greedily as much whitespace as possible subject
    to ending with a newline.  Returns the remainder after the match.
    (`\s` is modelled by the ASCII `isWs`.) -/
def paraBreakRest : List Char → Option (List Char)
  | [] => none
  | c :: rest =>
    if c = '\n' then
      let run := rest.takeWhile isWs
      if run.contains '\n' then
        some (rest.drop
          (run.length - (run.reverse.takeWhile (fun ch => !(ch == '\n'))).length))
      else none
    else none

theorem paraBreakRest_length_le (c : Char) (cs r : List Char)
    (h : paraBreakRest (c :: cs) = some r) : r.length ≤ cs.length := by
  rw [paraBreakRest] at h
  dsimp only at h
  split_ifs at h
  obtain rfl := Option.some.inj h
  simp [List.length_drop]

/-- JS `text.split(/\n\s*\n/)`: scan left to right, cutting at each leftmost
    regex match and resuming after it. -/
def splitParas : List Char → List (List Char)
  | [] => [[]]
  | c :: cs =>
    match h : paraBreakRest (c :: cs) with
    | some r => [] :: splitParas r
    | none =>
      let rest := splitParas cs
      (c :: rest.headI) :: rest.tail
termination_by l => l.length
decreasing_by
  · have hle := paraBreakRest_length_le _ _ _ h
    simp only [List.length_cons]
    omega
  · simp_wf

/-- `pushChars`: emit the non-whitespace characters of `text`, each tagged
    with the given class. -/
def pushChars (text : List Char) (cssClass : HighlightClass) : List TaggedChar :=
  (text.filter (fun c => !(isWs c))).map (fun c => ⟨c, cssClass⟩)

/-- `pushCharsWithMovedCheck`: split a removed/added run on paragraph
    boundaries; each trimmed segment found on the other side is tagged
    migrated-moved, otherwise with the default class. -/
def pushCharsWithMovedCheck (text : List Char) (defaultClass : HighlightClass)
    (otherSideNormalized : List Char) : List TaggedChar :=
  ((splitParas text).map (fun segment =>
    let trimmed := jsTrim segment
    let cssClass :=
      if isMovedContent trimmed otherSideNormalized then HighlightClass.migratedMoved
      else defaultClass
    pushChars segment cssClass)).flatten

/-- `buildTaggedChars`: the side-relevant tagged character stream of the diff
    change list. -/
def buildTaggedChars (diffChanges : List DiffChange) (side : Side)
    (otherSideText : List Char) : List TaggedChar :=
  let otherSideNormalized := normalizeForLookup otherSideText
  (diffChanges.map (fun change =>
    match side with
    | .source =>
      match change.type with
      | .equal => pushChars change.value .migrated
      | .removed =>
        pushCharsWithMovedCheck change.value .notMigrated otherSideNormalized
      | .added => []
    | .target =>
      match change.type with
      | .equal => pushChars change.value .migrated
      | .added =>
        pushCharsWithMovedCheck change.value .notMigrated otherSideNormalized
      | .removed => [])).flatten

/-! ## Moved-content threshold (claim C4) -/

theorem head?_dropWhile_not (p : Char → Bool) (l : List Char) (c : Char)
    (h : (l.dropWhile p).head? = some c) : p c = false := by
  induction l with
  | nil => simp [List.dropWhile] at h
  | cons a t ih =>
    rw [List.dropWhile_cons] at h
    split_ifs at h with hpa
    · exact ih h
    · simp only [List.head?_cons, Option.some.injEq] at h
      subst h
      simpa using hpa

theorem jsTrim_getLast?_not_ws (l : List Char) (c : Char)
    (h : (jsTrim l).getLast? = some c) : isWs c = false := by
  rw [jsTrim, List.getLast?_reverse] at h
  exact head?_dropWhile_not isWs _ c h

theorem jsTrim_head?_not_ws (l : List Char) (c : Char)
    (h : (jsTrim l).head? = some c) : isWs c = false := by
  rw [jsTrim, List.head?_reverse] at h
  obtain ⟨pre, hpre⟩ := List.dropWhile_suffix
    (l := (l.dropWhile isWs).reverse) (p := isWs)
  have hne : (l.dropWhile isWs).reverse.dropWhile isWs ≠ [] := by
    intro hnil
    rw [hnil] at h
    simp at h
  have h2 : ((l.dropWhile isWs).reverse).getLast? = some c := by
    rw [← hpre, List.getLast?_append_of_ne_nil _ hne]
    exact h
  rw [List.getLast?_reverse] at h2
  exact head?_dropWhile_not isWs _ c h2

/-- A list whose first and last characters are non-whitespace and which
    contains a space has length at least 3. -/
theorem length_of_mem_space (m : List Char)
    (hh : ∀ c, m.head? = some c → isWs c = false)
    (hl : ∀ c, m.getLast? = some c → isWs c = false)
    (hsp : ' ' ∈ m) : 3 ≤ m.length := by
  match m with
  | [] => simp at hsp
  | [a] =>
    rw [List.mem_singleton] at hsp
    subst hsp
    have := hh ' ' rfl
    simp [isWs] at this
  | [a, b] =>
    rcases List.mem_cons.mp hsp with ha | hb
    · subst ha
      have := hh ' ' rfl
      simp [isWs] at this
    · rw [List.mem_singleton] at hb
      subst hb
      have := hl ' ' rfl
      simp [isWs] at this
  | a :: b :: d :: t => simp [Nat.le_add_left]

theorem splitOnSpace_ne_nil (l : List Char) : splitOnSpace l ≠ [] := by
  cases l with
  | nil => simp [splitOnSpace]
  | cons c t =>
    rw [splitOnSpace]
    split_ifs <;> simp

theorem splitOnSpace_length (l : List Char) :
    (splitOnSpace l).length = l.count ' ' + 1 := by
  induction l with
  | nil => simp [splitOnSpace]
  | cons c t ih =>
    rw [splitOnSpace]
    split_ifs with hc
    · subst hc
      simp [List.count_cons, ih]
    · have hne := splitOnSpace_ne_nil t
      have hcount : (c :: t).count ' ' = t.count ' ' := by
        simp only [List.count_cons]
        have : ¬(c == ' ') = true := by simpa using hc
        simp [this]
      rw [hcount]
      simp only [List.length_cons, List.length_tail]
      have hpos : 1 ≤ (splitOnSpace t).length := List.length_pos.mpr hne
      omega

theorem jsIncludes_iff (hay needle : List Char) :
    jsIncludes hay needle = true ↔ needle <:+: hay := by
  induction hay with
  | nil =>
    rw [jsIncludes]
    simp [List.infix_nil, List.isEmpty_iff]
  | cons c t ih =>
    rw [jsIncludes]
    simp only [Bool.or_eq_true, List.isPrefixOf_iff_prefix, ih,
      List.infix_cons_iff]

/-- The spec's moved-content condition: the normalized segment occurs verbatim
    in the other side's normalized text, and the segment has at least two
    words, or is a single token of at least ten characters. -/
def specMovedCondition (segment otherSideNormalized : List Char) : Prop :=
  normalizeForLookup segment <:+: otherSideNormalized ∧
    (2 ≤ (splitOnSpace (normalizeForLookup segment)).length ∨
      ((splitOnSpace (normalizeForLookup segment)).length = 1 ∧
        10 ≤ (normalizeForLookup segment).length))

theorem isMovedContent_iff_spec (segment other : List Char) :
    isMovedContent segment other = true ↔ specMovedCondition segment other := by
  rw [isMovedContent]
  have hcnt := splitOnSpace_length (normalizeForLookup segment)
  have hpos : 1 ≤ (splitOnSpace (normalizeForLookup segment)).length :=
    List.length_pos.mpr (splitOnSpace_ne_nil _)
  split_ifs with h3 hthr
  · -- normalized length < 3: the code returns false; the spec condition
    -- cannot hold either, since two words force a space inside a trimmed
    -- string, making it at least 3 characters long.
    simp only [false_iff, specMovedCondition, not_and_or]
    by_contra hc
    push_neg at hc
    obtain ⟨-, hdisj⟩ := hc
    rcases hdisj with h2 | ⟨-, h10⟩
    · have hsp : ' ' ∈ normalizeForLookup segment := by
        by_contra hnotin
        have : (normalizeForLookup segment).count ' ' = 0 :=
          List.count_eq_zero.mpr hnotin
        omega
      have := length_of_mem_space (normalizeForLookup segment)
        (jsTrim_head?_not_ws _) (jsTrim_getLast?_not_ws _) hsp
      omega
    · omega
  · -- below the substance threshold: code false, spec condition false.
    simp only [false_iff, specMovedCondition, not_and_or]
    right
    push_neg
    exact ⟨by omega, fun _ => by omega⟩
  · -- length and threshold pass: includes ↔ infix, and the threshold
    -- disjunction holds.
    rw [jsIncludes_iff]
    unfold specMovedCondition
    constructor
    · intro hinf
      refine ⟨hinf, ?_⟩
      rcases Nat.lt_or_ge (splitOnSpace (normalizeForLookup segment)).length 2
        with hlt | hge
      · right
        constructor
        · omega
        · omega
      · left
        exact hge
    · rintro ⟨hinf, -⟩
      exact hinf

/-- C4: when building the tagged-character sequence, each removed (source
side) / added (target side) run is split on paragraph boundaries, and a
segment is reclassified migrated-moved instead of not-migrated exactly when
its normalized form occurs verbatim in the other side's normalized text and
it has at least two words or is a single token of at least ten characters
(the iff with `specMovedCondition`).  Concretely, a removed run
"big words\n\ncat" against a target text containing both: the two-word
segment "big words" is tagged migrated-moved, while the three-letter single
word "cat" stays not-migrated. -/
theorem annotator_moved_content_threshold :
    (∀ segment other : List Char,
        isMovedContent segment other = true ↔
          specMovedCondition segment other) ∧
    buildTaggedChars
        [⟨.removed,
          ['b', 'i', 'g', ' ', 'w', 'o', 'r', 'd', 's', '\n', '\n',
           'c', 'a', 't']⟩]
        .source
        ['x', 'x', ' ', 'b', 'i', 'g', ' ', 'w', 'o', 'r', 'd', 's', ' ',
         'c', 'a', 't'] =
      [⟨'b', .migratedMoved⟩, ⟨'i', .migratedMoved⟩, ⟨'g', .migratedMoved⟩,
       ⟨'w', .migratedMoved⟩, ⟨'o', .migratedMoved⟩, ⟨'r', .migratedMoved⟩,
       ⟨'d', .migratedMoved⟩, ⟨'s', .migratedMoved⟩,
       ⟨'c', .notMigrated⟩, ⟨'a', .notMigrated⟩, ⟨'t', .notMigrated⟩] := by
  constructor
  · exact isMovedContent_iff_spec
  · have hsplit : splitParas
        ['b', 'i', 'g', ' ', 'w', 'o', 'r', 'd', 's', '\n', '\n',
         'c', 'a', 't'] =
        [['b', 'i', 'g', ' ', 'w', 'o', 'r', 'd', 's'], ['c', 'a', 't']] := by
      simp [splitParas, paraBreakRest, isWs]
    simp only [buildTaggedChars, pushCharsWithMovedCheck, hsplit,
      List.map_cons, List.map_nil, List.flatten]
    decide

/-! ## Document trees (cheerio fragments) and block tagging
(`tagBlockElements` in `src/lib/annotator.ts`)

A sanitized content fragment is modelled as a forest of nodes: text nodes and
elements with a tag, an ordered attribute list and children. -/

inductive Node where
  | text (data : List Char)
  | elem (tag : String) (attrs : List (String × String)) (children : List Node)

/-- `LEAF_BLOCK_TAGS`. -/
def leafBlockTags : List String :=
  ["p", "h1", "h2", "h3", "h4", "h5", "h6",
   "li", "dt", "dd", "figcaption", "pre", "summary", "th", "td"]

/-- `STANDALONE_BLOCK_TAGS`. -/
def standaloneBlockTags : List String := ["img", "hr"]

def isLeafTag (t : String) : Bool := leafBlockTags.contains t

def isStandaloneTag (t : String) : Bool := standaloneBlockTags.contains t

mutual

/-- cheerio `$(node).text()`: concatenated text of all descendant text nodes. -/
def textOf : Node → List Char
  | .text d => d
  | .elem _ _ children => textOfList children

def textOfList : List Node → List Char
  | [] => []
  | n :: rest => textOf n ++ textOfList rest

end

mutual

/-- Phase 1 of `tagBlockElements` (`walk`): stop at leaf-block tags,
    collecting them when their trimmed text is non-empty; collect standalone
    tags unconditionally; recurse into everything else.  Text nodes are
    ignored (`node.type !== 'tag'`). -/
def collectNode : Node → List Node
  | .text _ => []
  | .elem tag attrs children =>
    if isLeafTag tag then
      if jsTrim (textOfList children) = [] then []
      else [.elem tag attrs children]
    else if isStandaloneTag tag then [.elem tag attrs children]
    else collectList children

def collectList : List Node → List Node
  | [] => []
  | n :: rest => collectNode n ++ collectList rest

end

/-- The zero-height spacer inserted before each collected block:
    `<div class="sync-spacer" data-spacer="i" style="height:0px"></div>`. -/
def spacerNode (i : Nat) : Node :=
  .elem "div"
    [("class", "sync-spacer"), ("data-spacer", toString i),
     ("style", "height:0px")] []

mutual

/-- Both phases of `tagBlockElements` fused into one pass: phase 1 collects in
    document order with a running counter, phase 2 sets `data-block-idx` and
    inserts the spacer immediately before the element; since phase 2 only
    touches the collected elements, a single counter-threading pass produces
    the same tree. -/
def tagNode (i : Nat) : Node → List Node × Nat
  | .text d => ([.text d], i)
  | .elem tag attrs children =>
    if isLeafTag tag then
      if jsTrim (textOfList children) = [] then ([.elem tag attrs children], i)
      else
        ([spacerNode i,
          .elem tag (attrs ++ [("data-block-idx", toString i)]) children],
         i + 1)
    else if isStandaloneTag tag then
      ([spacerNode i,
        .elem tag (attrs ++ [("data-block-idx", toString i)]) children],
       i + 1)
    else
      let (children', i') := tagList i children
      ([.elem tag attrs children'], i')

def tagList (i : Nat) : List Node → List Node × Nat
  | [] => ([], i)
  | n :: rest =>
    let (ns, i1) := tagNode i n
    let (rs, i2) := tagList i1 rest
    (ns ++ rs, i2)

end

def tagBlockElements (roots : List Node) : List Node := (tagList 0 roots).1

/-! ## Claim C5: which elements does `tagBlockElements` collect? -/

def isBlockTag (t : String) : Bool := isLeafTag t || isStandaloneTag t

mutual

/-- Does the element contain a nested block-level element (strict descendant
    with a leaf-block or standalone tag)? -/
def hasBlockDescendant : Node → Bool
  | .text _ => false
  | .elem _ _ children => anyBlockIn children

def anyBlockIn : List Node → Bool
  | [] => false
  | n :: rest =>
    (match n with
     | .text _ => false
     | .elem t _ _ => isBlockTag t || hasBlockDescendant n) || anyBlockIn rest

end

/-- The claim's literal selection criterion: a leaf block-level element that
    does not itself contain nested block elements and is non-empty, or a
    standalone visual element. -/
def claimSelected : Node → Bool
  | .text _ => false
  | .elem t _ children =>
    (isLeafTag t && !(jsTrim (textOfList children)).isEmpty &&
      !anyBlockIn children) ||
    isStandaloneTag t

mutual

/-- All elements of the tree satisfying the claim's criterion, in document
    order. -/
def claimCollectNode : Node → List Node
  | .text _ => []
  | .elem t a cs =>
    (if claimSelected (.elem t a cs) then [Node.elem t a cs] else []) ++
      claimCollectList cs

def claimCollectList : List Node → List Node
  | [] => []
  | n :: rest => claimCollectNode n ++ claimCollectList rest

end

def nodeTag : Node → String
  | .text _ => ""
  | .elem t _ _ => t

/-! ### Amended characterization: the walk collects the outermost blocky
elements, never looking inside a leaf-block or standalone element. -/

mutual

/-- Document-order list of every element paired with the tags of its strict
    ancestors (innermost first). -/
def elemsCtxNode (anc : List String) : Node → List (List String × Node)
  | .text _ => []
  | .elem t a cs => (anc, Node.elem t a cs) :: elemsCtxList (t :: anc) cs

def elemsCtxList (anc : List String) : List Node → List (List String × Node)
  | [] => []
  | n :: rest => elemsCtxNode anc n ++ elemsCtxList anc rest

end

/-- The walk's own selection criterion: a leaf-block element with non-empty
    trimmed text (checked first), otherwise a standalone element. -/
def walkCandidate : Node → Bool
  | .text _ => false
  | .elem t _ cs =>
    if isLeafTag t then !(jsTrim (textOfList cs)).isEmpty
    else isStandaloneTag t

/-- Amended selection: a walk candidate none of whose ancestors bears a
    leaf-block or standalone tag (the walk never descends into such
    elements). -/
def amendedSelect (pr : List String × Node) : Bool :=
  pr.1.all (fun t => !isBlockTag t) && walkCandidate pr.2

mutual

theorem elemsCtx_blocked_node (n : Node) (anc : List String)
    (h : anc.all (fun t => !isBlockTag t) = false) :
    (elemsCtxNode anc n).filter amendedSelect = [] := by
  match n with
  | .text _ => rfl
  | .elem t a cs =>
    rw [elemsCtxNode]
    rw [List.filter_cons]
    have h2 : ((t :: anc).all (fun t => !isBlockTag t)) = false := by
      rw [List.all_cons, h, Bool.and_false]
    rw [elemsCtx_blocked_list cs (t :: anc) h2]
    simp [amendedSelect, h]

theorem elemsCtx_blocked_list (l : List Node) (anc : List String)
    (h : anc.all (fun t => !isBlockTag t) = false) :
    (elemsCtxList anc l).filter amendedSelect = [] := by
  match l with
  | [] => rfl
  | n :: rest =>
    rw [elemsCtxList, List.filter_append,
      elemsCtx_blocked_node n anc h, elemsCtx_blocked_list rest anc h]
    rfl

end

mutual

theorem collectNode_eq_amended (n : Node) (anc : List String)
    (h : anc.all (fun t => !isBlockTag t) = true) :
    collectNode n = ((elemsCtxNode anc n).filter amendedSelect).map Prod.snd := by
  match n with
  | .text _ => rfl
  | .elem t a cs =>
    rw [collectNode, elemsCtxNode, List.filter_cons]
    by_cases hleaf : isLeafTag t = true
    · have hblocked : ((t :: anc).all (fun s => !isBlockTag s)) = false := by
        rw [List.all_cons]
        simp [isBlockTag, hleaf]
      rw [elemsCtx_blocked_list cs (t :: anc) hblocked]
      by_cases hempty : jsTrim (textOfList cs) = []
      · rw [if_pos hleaf, if_pos hempty]
        have : amendedSelect (anc, Node.elem t a cs) = false := by
          simp [amendedSelect, walkCandidate, hleaf, hempty]
        rw [this]
        rfl
      · rw [if_pos hleaf, if_neg hempty]
        have : amendedSelect (anc, Node.elem t a cs) = true := by
          simp [amendedSelect, walkCandidate, hleaf, hempty, h]
        rw [this]
        rfl
    · rw [if_neg hleaf]
      by_cases hsa : isStandaloneTag t = true
      · have hblocked : ((t :: anc).all (fun s => !isBlockTag s)) = false := by
          rw [List.all_cons]
          simp [isBlockTag, hsa]
        rw [elemsCtx_blocked_list cs (t :: anc) hblocked]
        rw [if_pos hsa]
        have : amendedSelect (anc, Node.elem t a cs) = true := by
          simp [amendedSelect, walkCandidate, hleaf, hsa, h]
        rw [this]
        rfl
      · rw [if_neg hsa]
        have hok : ((t :: anc).all (fun s => !isBlockTag s)) = true := by
          rw [List.all_cons, h]
          simp [isBlockTag, hleaf, hsa]
        have : amendedSelect (anc, Node.elem t a cs) = false := by
          simp [amendedSelect, walkCandidate, hleaf, hsa]
        rw [this, collectList_eq_amended cs (t :: anc) hok]
        rfl

theorem collectList_eq_amended (l : List Node) (anc : List String)
    (h : anc.all (fun t => !isBlockTag t) = true) :
    collectList l = ((elemsCtxList anc l).filter amendedSelect).map Prod.snd := by
  match l with
  | [] => rfl
  | n :: rest =>
    rw [collectList, elemsCtxList, List.filter_append, List.map_append,
      collectNode_eq_amended n anc h, collectList_eq_amended rest anc h]

end

/-! ### Sequential indices and spacer placement in the tagged output -/

/-- cheerio `$el.attr(k)`: first attribute with the given name. -/
def getAttr : Node → String → Option String
  | .text _, _ => none
  | .elem _ attrs _, k => (attrs.find? (fun pr => pr.1 == k)).map Prod.snd

mutual

/-- The input fragment carries none of the annotation attributes the tagger
    introduces (`data-block-idx`, `data-spacer`). -/
def cleanNode : Node → Bool
  | .text _ => true
  | .elem _ a cs =>
    a.all (fun pr => !(pr.1 == "data-block-idx") && !(pr.1 == "data-spacer")) &&
      cleanList cs

def cleanList : List Node → Bool
  | [] => true
  | n :: rest => cleanNode n && cleanList rest

end

mutual

/-- Document-order list of all `data-block-idx` attribute values in a tree. -/
def idxAttrsNode : Node → List String
  | .text _ => []
  | .elem t a cs =>
    (match getAttr (.elem t a cs) "data-block-idx" with
     | some v => [v]
     | none => []) ++ idxAttrsList cs

def idxAttrsList : List Node → List String
  | [] => []
  | n :: rest => idxAttrsNode n ++ idxAttrsList rest

end

theorem idxAttrsList_append (l₁ l₂ : List Node) :
    idxAttrsList (l₁ ++ l₂) = idxAttrsList l₁ ++ idxAttrsList l₂ := by
  induction l₁ with
  | nil => rfl
  | cons n rest ih => simp [idxAttrsList, ih]

theorem clean_find?_idx (a : List (String × String))
    (h : a.all
      (fun pr => !(pr.1 == "data-block-idx") && !(pr.1 == "data-spacer")) =
        true) :
    a.find? (fun pr => pr.1 == "data-block-idx") = none := by
  rw [List.all_eq_true] at h
  rw [List.find?_eq_none]
  intro pr hpr
  have h2 := h pr hpr
  simp only [Bool.and_eq_true, Bool.not_eq_true'] at h2
  simp [h2.1]

theorem clean_find?_spacer (a : List (String × String))
    (h : a.all
      (fun pr => !(pr.1 == "data-block-idx") && !(pr.1 == "data-spacer")) =
        true) :
    a.find? (fun pr => pr.1 == "data-spacer") = none := by
  rw [List.all_eq_true] at h
  rw [List.find?_eq_none]
  intro pr hpr
  have h2 := h pr hpr
  simp only [Bool.and_eq_true, Bool.not_eq_true'] at h2
  simp [h2.2]

theorem clean_getAttr_idx (t : String) (a : List (String × String))
    (cs : List Node) (h : cleanNode (.elem t a cs) = true) :
    getAttr (.elem t a cs) "data-block-idx" = none := by
  rw [cleanNode, Bool.and_eq_true] at h
  rw [getAttr, clean_find?_idx a h.1]
  rfl

theorem clean_getAttr_spacer (t : String) (a : List (String × String))
    (cs : List Node) (h : cleanNode (.elem t a cs) = true) :
    getAttr (.elem t a cs) "data-spacer" = none := by
  rw [cleanNode, Bool.and_eq_true] at h
  rw [getAttr, clean_find?_spacer a h.1]
  rfl

mutual

theorem clean_idxAttrsNode (n : Node) (h : cleanNode n = true) :
    idxAttrsNode n = [] := by
  match n with
  | .text _ => rfl
  | .elem t a cs =>
    have h2 := h
    rw [cleanNode, Bool.and_eq_true] at h2
    rw [idxAttrsNode, clean_getAttr_idx t a cs h,
      clean_idxAttrsList cs h2.2]
    rfl

theorem clean_idxAttrsList (l : List Node) (h : cleanList l = true) :
    idxAttrsList l = [] := by
  match l with
  | [] => rfl
  | n :: rest =>
    rw [cleanList, Bool.and_eq_true] at h
    rw [idxAttrsList, clean_idxAttrsNode n h.1, clean_idxAttrsList rest h.2]
    rfl

end

mutual

theorem tagNode_counter (i : Nat) (n : Node) :
    (tagNode i n).2 = i + (collectNode n).length := by
  match n with
  | .text _ => rfl
  | .elem t a cs =>
    rw [tagNode, collectNode]
    by_cases h1 : isLeafTag t = true
    · rw [if_pos h1, if_pos h1]
      by_cases h2 : jsTrim (textOfList cs) = []
      · rw [if_pos h2, if_pos h2]
        rfl
      · rw [if_neg h2, if_neg h2]
        rfl
    · rw [if_neg h1, if_neg h1]
      by_cases h3 : isStandaloneTag t = true
      · rw [if_pos h3, if_pos h3]
        rfl
      · rw [if_neg h3, if_neg h3]
        exact tagList_counter i cs

theorem tagList_counter (i : Nat) (l : List Node) :
    (tagList i l).2 = i + (collectList l).length := by
  match l with
  | [] => rfl
  | n :: rest =>
    rw [tagList, collectList]
    show (tagList (tagNode i n).2 rest).2 = _
    rw [tagList_counter (tagNode i n).2 rest, tagNode_counter i n,
      List.length_append]
    omega

end

/-- The data-block-idx attribute of a tagged element: the original attributes
    are clean, so the appended pair is the one found. -/
theorem getAttr_tagged (t : String) (a : List (String × String))
    (cs cs' : List Node) (v : String)
    (h : cleanNode (.elem t a cs) = true) :
    getAttr (.elem t (a ++ [("data-block-idx", v)]) cs') "data-block-idx" =
      some v := by
  rw [cleanNode, Bool.and_eq_true] at h
  rw [getAttr, List.find?_append, clean_find?_idx a h.1]
  rfl

mutual

theorem tagNode_idxAttrs (i : Nat) (n : Node) (h : cleanNode n = true) :
    idxAttrsList (tagNode i n).1 =
      (List.range' i (collectNode n).length).map toString := by
  match n with
  | .text _ => rfl
  | .elem t a cs =>
    have hclean := h
    rw [cleanNode, Bool.and_eq_true] at hclean
    rw [tagNode, collectNode]
    by_cases h1 : isLeafTag t = true
    · rw [if_pos h1, if_pos h1]
      by_cases h2 : jsTrim (textOfList cs) = []
      · rw [if_pos h2, if_pos h2]
        show idxAttrsList [Node.elem t a cs] = _
        rw [idxAttrsList, clean_idxAttrsNode _ h, idxAttrsList]
        rfl
      · rw [if_neg h2, if_neg h2]
        show idxAttrsList [spacerNode i,
          .elem t (a ++ [("data-block-idx", toString i)]) cs] = _
        rw [idxAttrsList]
        rw [show idxAttrsNode (spacerNode i) = [] from rfl]
        rw [idxAttrsList, idxAttrsNode,
          getAttr_tagged t a cs cs (toString i) h,
          clean_idxAttrsList cs hclean.2, idxAttrsList]
        rfl
    · rw [if_neg h1, if_neg h1]
      by_cases h3 : isStandaloneTag t = true
      · rw [if_pos h3, if_pos h3]
        show idxAttrsList [spacerNode i,
          .elem t (a ++ [("data-block-idx", toString i)]) cs] = _
        rw [idxAttrsList]
        rw [show idxAttrsNode (spacerNode i) = [] from rfl]
        rw [idxAttrsList, idxAttrsNode,
          getAttr_tagged t a cs cs (toString i) h,
          clean_idxAttrsList cs hclean.2, idxAttrsList]
        rfl
      · rw [if_neg h3, if_neg h3]
        show idxAttrsList [Node.elem t a (tagList i cs).1] = _
        rw [idxAttrsList, idxAttrsList, List.append_nil, idxAttrsNode]
        have hnone : getAttr (.elem t a (tagList i cs).1) "data-block-idx" =
            none := by
          rw [getAttr, clean_find?_idx a hclean.1]
          rfl
        rw [hnone, tagList_idxAttrs i cs hclean.2]
        rfl

theorem tagList_idxAttrs (i : Nat) (l : List Node) (h : cleanList l = true) :
    idxAttrsList (tagList i l).1 =
      (List.range' i (collectList l).length).map toString := by
  match l with
  | [] => rfl
  | n :: rest =>
    rw [cleanList, Bool.and_eq_true] at h
    rw [tagList, collectList]
    show idxAttrsList ((tagNode i n).1 ++ (tagList (tagNode i n).2 rest).1) = _
    rw [idxAttrsList_append, tagNode_idxAttrs i n h.1,
      tagList_idxAttrs (tagNode i n).2 rest h.2, tagNode_counter i n,
      ← List.map_append, List.length_append]
    congr 1
    have hr := List.range'_append i (collectNode n).length
      (collectList rest).length 1
    simp only [one_mul] at hr
    rw [Nat.add_comm (collectNode n).length (collectList rest).length]
    exact hr

end

/-- Is this node exactly the zero-height sync spacer carrying the given
    data-spacer value? -/
def isSpacerWithIdx : Node → String → Bool
  | .elem t a cs, v =>
    (t == "div") &&
    (a == [("class", "sync-spacer"), ("data-spacer", v),
           ("style", "height:0px")]) &&
    cs.isEmpty
  | .text _, _ => false

mutual

/-- Scan a sibling list: every element carrying a `data-spacer` attribute must
    be exactly the zero-height sync spacer and be immediately followed by an
    element whose `data-block-idx` equals its value; every other node must not
    carry a `data-block-idx`; recurse into children. -/
def spacersOkNode : Node → Bool
  | .text _ => true
  | .elem _ _ cs => spacersOkList cs

def spacersOkList : List Node → Bool
  | [] => true
  | n :: rest =>
    match getAttr n "data-spacer" with
    | some v =>
      isSpacerWithIdx n v &&
      (match rest with
       | m :: rest2 =>
         (getAttr m "data-block-idx" == some v) && spacersOkNode m &&
           spacersOkList rest2
       | [] => false)
    | none =>
      (getAttr n "data-block-idx").isNone && spacersOkNode n &&
        spacersOkList rest

end

mutual

theorem clean_spacersOkNode (n : Node) (h : cleanNode n = true) :
    spacersOkNode n = true := by
  match n with
  | .text _ => rfl
  | .elem t a cs =>
    rw [cleanNode, Bool.and_eq_true] at h
    rw [spacersOkNode, clean_spacersOkList cs h.2]

theorem clean_spacersOkList (l : List Node) (h : cleanList l = true) :
    spacersOkList l = true := by
  match l with
  | [] => rfl
  | n :: rest =>
    rw [cleanList, Bool.and_eq_true] at h
    rw [spacersOkList]
    have hs : getAttr n "data-spacer" = none := by
      match n with
      | .text _ => rfl
      | .elem t a cs => exact clean_getAttr_spacer t a cs h.1
    rw [hs]
    have hi : getAttr n "data-block-idx" = none := by
      match n with
      | .text _ => rfl
      | .elem t a cs => exact clean_getAttr_idx t a cs h.1
    rw [hi, clean_spacersOkNode n h.1, clean_spacersOkList rest h.2]
    rfl

end

theorem getAttr_tagged_spacer (t : String) (a : List (String × String))
    (cs cs' : List Node) (v : String)
    (h : cleanNode (.elem t a cs) = true) :
    getAttr (.elem t (a ++ [("data-block-idx", v)]) cs') "data-spacer" =
      none := by
  rw [cleanNode, Bool.and_eq_true] at h
  rw [getAttr, List.find?_append, clean_find?_spacer a h.1]
  rfl

/-- The `[spacer i, tagged element]` output of a collected block passes the
    scan and hands over to the tail. -/
theorem tagged_pair_spacersOk (i : Nat) (t : String)
    (a : List (String × String)) (cs : List Node) (tail : List Node)
    (hn : cleanNode (.elem t a cs) = true)
    (htail : spacersOkList tail = true) :
    spacersOkList ([spacerNode i,
      .elem t (a ++ [("data-block-idx", toString i)]) cs] ++ tail) = true := by
  have hclean := hn
  rw [cleanNode, Bool.and_eq_true] at hclean
  show spacersOkList (spacerNode i ::
    Node.elem t (a ++ [("data-block-idx", toString i)]) cs :: tail) = true
  simp only [spacersOkList,
    show getAttr (spacerNode i) "data-spacer" = some (toString i) from rfl,
    show isSpacerWithIdx (spacerNode i) (toString i) = true from by
      simp [spacerNode, isSpacerWithIdx],
    getAttr_tagged t a cs cs (toString i) hn,
    show spacersOkNode
        (.elem t (a ++ [("data-block-idx", toString i)]) cs) =
      spacersOkList cs from rfl,
    clean_spacersOkList cs hclean.2, htail]
  simp

mutual

theorem tagNode_spacersOk (i : Nat) (n : Node) (tail : List Node)
    (hn : cleanNode n = true) (htail : spacersOkList tail = true) :
    spacersOkList ((tagNode i n).1 ++ tail) = true := by
  match n with
  | .text d =>
    show spacersOkList (Node.text d :: tail) = true
    rw [spacersOkList]
    show ((getAttr (.text d) "data-block-idx").isNone &&
      spacersOkNode (.text d) && spacersOkList tail) = true
    rw [htail]
    rfl
  | .elem t a cs =>
    have hclean := hn
    rw [cleanNode, Bool.and_eq_true] at hclean
    rw [tagNode]
    by_cases h1 : isLeafTag t = true
    · rw [if_pos h1]
      by_cases h2 : jsTrim (textOfList cs) = []
      · rw [if_pos h2]
        show spacersOkList (Node.elem t a cs :: tail) = true
        rw [spacersOkList]
        simp only [clean_getAttr_spacer t a cs hn,
          clean_getAttr_idx t a cs hn, clean_spacersOkNode _ hn, htail]
        rfl
      · rw [if_neg h2]
        exact tagged_pair_spacersOk i t a cs tail hn htail
    · rw [if_neg h1]
      by_cases h3 : isStandaloneTag t = true
      · rw [if_pos h3]
        exact tagged_pair_spacersOk i t a cs tail hn htail
      · rw [if_neg h3]
        show spacersOkList (Node.elem t a (tagList i cs).1 :: tail) = true
        rw [spacersOkList]
        have hs : getAttr (.elem t a (tagList i cs).1) "data-spacer" =
            none := by
          rw [getAttr, clean_find?_spacer a hclean.1]
          rfl
        have hi : getAttr (.elem t a (tagList i cs).1) "data-block-idx" =
            none := by
          rw [getAttr, clean_find?_idx a hclean.1]
          rfl
        simp only [hs, hi,
          show spacersOkNode (.elem t a (tagList i cs).1) =
            spacersOkList (tagList i cs).1 from rfl,
          tagList_spacersOk i cs hclean.2, htail]
        rfl
termination_by sizeOf n

theorem tagList_spacersOk (i : Nat) (l : List Node)
    (h : cleanList l = true) : spacersOkList (tagList i l).1 = true := by
  match l with
  | [] => rfl
  | n :: rest =>
    rw [cleanList, Bool.and_eq_true] at h
    rw [tagList]
    show spacersOkList ((tagNode i n).1 ++ (tagList (tagNode i n).2 rest).1) =
      true
    have htail2 : spacersOkList (tagList (tagNode i n).2 rest).1 = true :=
      tagList_spacersOk (tagNode i n).2 rest h.2
    exact tagNode_spacersOk i n _ h.1 htail2
termination_by sizeOf l

end

/-- C5, counterexample: the walk does not implement the "no nested block
elements" criterion.  On `<li><p>x</p></li>` the walk collects the `li`
(which contains the nested block `p`), whereas the claim's criterion selects
exactly the `p`; the collected list differs from the claimed one. -/
theorem tagBlockElements_claim_counterexample :
    (collectList
        [Node.elem "li" [] [Node.elem "p" [] [Node.text ['x']]]]).map nodeTag =
      ["li"] ∧
    (claimCollectList
        [Node.elem "li" [] [Node.elem "p" [] [Node.text ['x']]]]).map nodeTag =
      ["p"] ∧
    collectList [Node.elem "li" [] [Node.elem "p" [] [Node.text ['x']]]] ≠
      claimCollectList
        [Node.elem "li" [] [Node.elem "p" [] [Node.text ['x']]]] := by
  refine ⟨by decide, by decide, fun h => ?_⟩
  have := congrArg (List.map nodeTag) h
  revert this
  decide

/-- C5, amended: the block-tagging pass collects, in document order, exactly
the outermost blocky elements — walk candidates (leaf-block tag with
non-empty trimmed text, or standalone img/hr tag) none of whose ancestors
bears a leaf-block or standalone tag; the walk never descends into leaf-block
or standalone elements, so a collected leaf may itself contain nested block
elements, which are not collected.  On input free of the annotation
attributes, the i-th collected element receives data-block-idx i, a
zero-height sync spacer with data-spacer = i sits immediately before each
indexed element, and no other element is tagged or preceded by a spacer
(the `spacersOkList` scan). -/
theorem tagBlockElements_amended :
    (∀ roots : List Node,
        collectList roots =
          ((elemsCtxList [] roots).filter amendedSelect).map Prod.snd) ∧
    (∀ roots : List Node, cleanList roots = true →
        idxAttrsList (tagBlockElements roots) =
          (List.range' 0 (collectList roots).length).map toString ∧
        spacersOkList (tagBlockElements roots) = true) := by
  constructor
  · intro roots
    exact collectList_eq_amended roots [] rfl
  · intro roots h
    exact ⟨tagList_idxAttrs 0 roots h, tagList_spacersOk 0 roots h⟩

/-- Witness for the amended C5 theorem at the `<li><p>x</p></li>` fragment. -/
theorem tagBlockElements_amended_witness :
    cleanList [Node.elem "li" [] [Node.elem "p" [] [Node.text ['x']]]] =
      true ∧
    idxAttrsList (tagBlockElements
        [Node.elem "li" [] [Node.elem "p" [] [Node.text ['x']]]]) =
      (List.range' 0 (collectList
        [Node.elem "li" [] [Node.elem "p" [] [Node.text ['x']]]]).length).map
        toString ∧
    spacersOkList (tagBlockElements
        [Node.elem "li" [] [Node.elem "p" [] [Node.text ['x']]]]) = true := by
  have h : cleanList
      [Node.elem "li" [] [Node.elem "p" [] [Node.text ['x']]]] = true := by
    decide
  exact ⟨h, tagBlockElements_amended.2 _ h⟩

/-! ## Text-node annotation (`annotateTextNodes`) — claims C6, C7 -/

structure AnnState where
  charPtr : Nat
  lastCssClass : Option HighlightClass
  deriving Repr, DecidableEq

/-- One character of the matching loop: whitespace inherits `lastCssClass`
    unchanged; a non-whitespace character matching the tagged stream consumes
    it and updates `lastCssClass`; a non-whitespace mismatch (wrong character
    or exhausted stream) is classified `none` and leaves the state — including
    `lastCssClass` — untouched. -/
def classifyChar (tagged : List TaggedChar) (st : AnnState) (ch : Char) :
    Option HighlightClass × AnnState :=
  if isWs ch then (st.lastCssClass, st)
  else
    match tagged[st.charPtr]? with
    | some tc =>
      if ch = tc.char then
        (some tc.cssClass, ⟨st.charPtr + 1, some tc.cssClass⟩)
      else (none, st)
    | none => (none, st)

/-- Classify every character of a text node, threading the state. -/
def classifyChars (tagged : List TaggedChar) :
    AnnState → List Char → List (Char × Option HighlightClass) × AnnState
  | st, [] => ([], st)
  | st, ch :: rest =>
    let (cls, st1) := classifyChar tagged st ch
    let (out, st2) := classifyChars tagged st1 rest
    ((ch, cls) :: out, st2)

/-- Group adjacent identically classified characters into runs (the
    `currentRun` / `currentClass` flushing loop). -/
def chunkRuns :
    List (Char × Option HighlightClass) →
    List (List Char × Option HighlightClass)
  | [] => []
  | (c, cls) :: rest =>
    match chunkRuns rest with
    | (cs, cls2) :: out =>
      if cls = cls2 then (c :: cs, cls) :: out
      else ([c], cls) :: (cs, cls2) :: out
    | [] => [([c], cls)]

/-- `formatRun` at the tree level: a classified run becomes a highlight mark
    (migrated-moved renders as a migrated mark with the extra `moved` class),
    an unclassified run stays plain text with no mark.  (The source emits an
    HTML string which cheerio re-parses; the net tree effect is this.) -/
def formatRunNode (runText : List Char) : Option HighlightClass → Node
  | some .migratedMoved =>
    .elem "mark" [("class", "migrated moved")] [.text runText]
  | some .migrated => .elem "mark" [("class", "migrated")] [.text runText]
  | some .notMigrated => .elem "mark" [("class", "not-migrated")] [.text runText]
  | none => .text runText

mutual

/-- Walk the tree in document order replacing each non-whitespace-bearing
    text node by its classified runs; whitespace-only (or empty) text nodes
    are left untouched. -/
def annotateNode (tagged : List TaggedChar) (st : AnnState) :
    Node → List Node × AnnState
  | .text d =>
    if d.isEmpty || (jsTrim d).isEmpty then ([.text d], st)
    else
      let (out, st1) := classifyChars tagged st d
      ((chunkRuns out).map (fun pr => formatRunNode pr.1 pr.2), st1)
  | .elem t a cs =>
    let (cs', st1) := annotateList tagged st cs
    ([.elem t a cs'], st1)

def annotateList (tagged : List TaggedChar) (st : AnnState) :
    List Node → List Node × AnnState
  | [] => ([], st)
  | n :: rest =>
    let (ns, st1) := annotateNode tagged st n
    let (rs, st2) := annotateList tagged st1 rest
    (ns ++ rs, st2)

end

/-- `annotateTextNodes`: no-op on an empty tagged stream, otherwise one
    stateful walk starting at pointer 0 with no inherited class. -/
def annotateTextNodes (tagged : List TaggedChar) (roots : List Node) :
    List Node :=
  if tagged.isEmpty then roots
  else (annotateList tagged ⟨0, none⟩ roots).1

mutual

/-- `$('script').remove()`: drop script elements at any depth. -/
def removeScriptsNode : Node → List Node
  | .text d => [.text d]
  | .elem t a cs =>
    if t = "script" then []
    else [.elem t a (removeScriptsList cs)]

def removeScriptsList : List Node → List Node
  | [] => []
  | n :: rest => removeScriptsNode n ++ removeScriptsList rest

end

/-! ## Image annotation (`annotateImages`) -/

inductive ImageStatus
  | found
  | missing
  | unverified
  deriving Repr, DecidableEq

structure ImageDetail where
  src : String
  status : ImageStatus
  targetMatch : Option String
  deriving Repr, DecidableEq

/-- Pathname of `new URL(url)`, modelled for the scheme-qualified absolute
    URLs the pipeline feeds it: requires a `://` separator (otherwise the JS
    constructor throws and the caller falls back); the pathname is everything
    after the first `/` following the authority, cut at `?` or `#`. -/
def urlPathname (url : String) : Option String :=
  match url.splitOn "://" with
  | _ :: rest0 :: restMore =>
    let afterScheme := String.intercalate "://" (rest0 :: restMore)
    let path :=
      match afterScheme.splitOn "/" with
      | _host :: segs => "/" ++ String.intercalate "/" segs
      | [] => "/"
    some (((path.splitOn "?").headI.splitOn "#").headI)
  | _ => none

/-- `IMAGE_EXTENSIONS` (the `/\.(jpe?g|png|gif|webp|svg|bmp|ico|avif|tiff?)$/i`
    test). -/
def imageExtensions : List String :=
  ["jpg", "jpeg", "png", "gif", "webp", "svg", "bmp", "ico", "avif",
   "tif", "tiff"]

def hasImageExt (seg : String) : Bool :=
  imageExtensions.any (fun e => seg.toLower.endsWith ("." ++ e))

/-- `getImageFilename`: last path segment with an image extension, else the
    last segment, else the last slash-separated piece of the raw string. -/
def getImageFilename (url : String) : String :=
  match urlPathname url with
  | some path =>
    let segments := (path.splitOn "/").filter (fun s => !s.isEmpty)
    match segments.reverse.find? hasImageExt with
    | some s => s
    | none => segments.getLast?.getD ""
  | none => ((url.splitOn "/").getLast?).getD ""

/-- `statusBySrc.get(src)`: the map is built front to back with overwrites,
    so lookup finds the last entry with this src. -/
def statusBySrc (imageDetails : List ImageDetail) (src : String) :
    Option ImageStatus :=
  (imageDetails.reverse.find? (fun img => img.src == src)).map (·.status)

def findStatusByFilename (src : String) (imageDetails : List ImageDetail) :
    Option ImageStatus :=
  let filename := getImageFilename src
  if filename.isEmpty then none
  else
    (imageDetails.find? (fun img => getImageFilename img.src == filename)).map
      (·.status)

def matchedTargetUrls (imageDetails : List ImageDetail) : List String :=
  imageDetails.filterMap
    (fun img => if img.status == .found then img.targetMatch else none)

def matchedTargetUrlByFilename (src : String) (urls : List String) : Bool :=
  let filename := getImageFilename src
  if filename.isEmpty then false
  else urls.any (fun u => getImageFilename u == filename)

/-- cheerio `addClass`: append to an existing class attribute or create it. -/
def addClass (cls : String) : Node → Node
  | .text d => .text d
  | .elem t a cs =>
    match a.find? (fun pr => pr.1 == "class") with
    | some _ =>
      .elem t
        (a.map (fun pr =>
          if pr.1 == "class" then (pr.1, pr.2 ++ " " ++ cls) else pr)) cs
    | none => .elem t (a ++ [("class", cls)]) cs

/-- Which image class the side's rule assigns to an `img` with this src. -/
def imgClassFor (imageDetails : List ImageDetail) (side : Side)
    (src : String) : Option String :=
  match side with
  | .source =>
    match (statusBySrc imageDetails src).orElse
        (fun _ => findStatusByFilename src imageDetails) with
    | some .found => some "img-migrated"
    | some .missing => some "img-not-migrated"
    | some .unverified => some "img-not-migrated"
    | none => none
  | .target =>
    let urls := matchedTargetUrls imageDetails
    if urls.contains src || matchedTargetUrlByFilename src urls then
      some "img-migrated"
    else some "img-not-migrated"

mutual

def annotateImagesNode (imageDetails : List ImageDetail) (side : Side) :
    Node → Node
  | .text d => .text d
  | .elem t a cs =>
    if t = "img" then
      let src := (getAttr (.elem t a cs) "src").getD ""
      match imgClassFor imageDetails side src with
      | some cls => addClass cls (.elem t a cs)
      | none => .elem t a cs
    else .elem t a (annotateImagesList imageDetails side cs)

def annotateImagesList (imageDetails : List ImageDetail) (side : Side) :
    List Node → List Node
  | [] => []
  | n :: rest =>
    annotateImagesNode imageDetails side n ::
      annotateImagesList imageDetails side rest

end

/-! ## The full view pipeline (`annotateView`) -/

def escapeChar (c : Char) : List Char :=
  if c = '&' then "&amp;".data
  else if c = '<' then "&lt;".data
  else if c = '>' then "&gt;".data
  else if c = '"' then "&quot;".data
  else if c = '\'' then "&#39;".data
  else [c]

/-- `escapeHtml` of the source, applied per character. -/
def escapeHtml (l : List Char) : List Char := (l.map escapeChar).flatten

mutual

/-- Serialize a node back to HTML (cheerio `$.html()`): text is escaped,
    elements render their attributes and children. -/
def renderNode : Node → String
  | .text d => String.mk (escapeHtml d)
  | .elem t a cs =>
    "<" ++ t ++
      String.join (a.map (fun pr => " " ++ pr.1 ++ "=\"" ++ pr.2 ++ "\"")) ++
      ">" ++ renderList cs ++ "</" ++ t ++ ">"

def renderList : List Node → String
  | [] => ""
  | n :: rest => renderNode n ++ renderList rest

end

/-- The fixed stylesheet of the wrapped document (contents inert for the
    properties proved here). -/
def docStyle : String := "body, mark.migrated, mark.not-migrated, styles"

/-- The surface-side message-handler script of the wrapped document
    (contents inert for the properties proved here). -/
def docScript : String := "surface message handler"

/-- `wrapInHtmlDocument`: the complete self-contained document around the
    annotated body. -/
def wrapInHtmlDocument (annotatedBody : String) (defaultMode : String) :
    String :=
  "<!DOCTYPE html>\n<html>\n<head>\n<meta charset=\"UTF-8\">\n" ++
  "<meta name=\"viewport\" content=\"width=device-width, initial-scale=1.0\">\n" ++
  "<style>" ++ docStyle ++ "</style>\n</head>\n<body class=\"show-" ++
  defaultMode ++ "\">\n" ++ annotatedBody ++ "\n<script>" ++ docScript ++
  "</script>\n</body>\n</html>"

def defaultModeFor : Side → String
  | .source => "not-migrated"
  | .target => "migrated"

/-- `annotateView` on a parsed content fragment (cheerio's HTML parsing is
    the external boundary; the fragment tree is the input): strip scripts,
    build the tagged stream, annotate text nodes, annotate images, tag block
    elements, wrap. -/
def annotateView (contentNodes : List Node) (diffChanges : List DiffChange)
    (imageDetails : List ImageDetail) (side : Side)
    (otherSideText : List Char) : String :=
  let nodes0 := removeScriptsList contentNodes
  let taggedChars := buildTaggedChars diffChanges side otherSideText
  let nodes1 := annotateTextNodes taggedChars nodes0
  let nodes2 := annotateImagesList imageDetails side nodes1
  let nodes3 := tagBlockElements nodes2
  wrapInHtmlDocument (renderList nodes3) (defaultModeFor side)

/-! ## Claims C6 and C7 -/

theorem classifyChar_ws (tagged : List TaggedChar) (st : AnnState) (c : Char)
    (h : isWs c = true) :
    classifyChar tagged st c = (st.lastCssClass, st) := by
  rw [classifyChar, if_pos h]

theorem classifyChar_mismatch (tagged : List TaggedChar) (st : AnnState)
    (c : Char) (hws : isWs c = false)
    (hmis : ∀ tc, tagged[st.charPtr]? = some tc → c ≠ tc.char) :
    classifyChar tagged st c = (none, st) := by
  rw [classifyChar, if_neg (by simp [hws])]
  cases htc : tagged[st.charPtr]? with
  | none => rfl
  | some tc =>
    simp only [htc]
    rw [if_neg (hmis tc htc)]

theorem classifyChars_chars (tagged : List TaggedChar) (st : AnnState)
    (chars : List Char) :
    (classifyChars tagged st chars).1.map Prod.fst = chars := by
  induction chars generalizing st with
  | nil => rfl
  | cons ch rest ih =>
    show ((ch, (classifyChar tagged st ch).1) ::
      (classifyChars tagged (classifyChar tagged st ch).2 rest).1).map
        Prod.fst = ch :: rest
    rw [List.map_cons, ih]

/-- C6: annotation is total: for every input tree, diff-change sequence,
image report and side (including empty and absent content), `annotateView`
returns a complete wrapped HTML document — always of the form
`wrapInHtmlDocument body mode`; a non-whitespace character that does not
match the expected tagged character is classified untagged (`none`), leaving
the matching state untouched, and an untagged run renders as plain text with
no highlight mark; no character of a processed text node is dropped; an
empty document yields the full wrapped document around an empty body. -/
theorem annotator_total_mismatch_untagged :
    (∀ (contentNodes : List Node) (diffChanges : List DiffChange)
        (imageDetails : List ImageDetail) (side : Side)
        (otherSideText : List Char),
        ∃ body,
          annotateView contentNodes diffChanges imageDetails side
              otherSideText =
            wrapInHtmlDocument body (defaultModeFor side)) ∧
    (∀ (tagged : List TaggedChar) (st : AnnState) (ch : Char),
        isWs ch = false →
        (∀ tc, tagged[st.charPtr]? = some tc → ch ≠ tc.char) →
        classifyChar tagged st ch = (none, st)) ∧
    (∀ runText : List Char, formatRunNode runText none = .text runText) ∧
    (∀ (tagged : List TaggedChar) (st : AnnState) (chars : List Char),
        (classifyChars tagged st chars).1.map Prod.fst = chars) ∧
    annotateView [] [] [] .source [] = wrapInHtmlDocument "" "not-migrated" := by
  refine ⟨fun contentNodes diffChanges imageDetails side otherSideText =>
      ⟨_, rfl⟩,
    classifyChar_mismatch, fun _ => rfl, classifyChars_chars, rfl⟩

/-- Witness for C6: a mismatching character against a concrete stream. -/
theorem annotator_total_mismatch_untagged_witness :
    isWs 'b' = false ∧
    classifyChar [⟨'a', .migrated⟩] ⟨0, none⟩ 'b' = (none, ⟨0, none⟩) := by
  refine ⟨by decide, annotator_total_mismatch_untagged.2.1
    [⟨'a', .migrated⟩] ⟨0, none⟩ 'b' (by decide) ?_⟩
  intro tc htc
  have : tc = ⟨'a', .migrated⟩ := by
    exact (by simpa using htc : (⟨'a', .migrated⟩ : TaggedChar) = tc).symm
  subst this
  decide

/-- The classification the claim says a whitespace character should receive:
    that of the nearest preceding non-whitespace character, as emitted. -/
def emittedClassOfNearestNonWs
    (out : List (Char × Option HighlightClass)) (i : Nat) :
    Option (Option HighlightClass) :=
  ((out.take i).reverse.find? (fun pr => !(isWs pr.1))).map Prod.snd

/-- C7, counterexample: on the text "ab c" against the tagged stream ['a'],
'b' is a mismatch emitted untagged, but `lastCssClass` is not updated on a
mismatch, so the following space is classified with 'a''s class (migrated)
instead of the untagged classification 'b' was emitted with — refuting "every
whitespace character is given the classification of the nearest preceding
non-whitespace character (whatever classification that character was emitted
with)". -/
theorem whitespace_inheritance_counterexample :
    ¬(∀ (i : Nat) (pr : Char × Option HighlightClass),
        ((classifyChars [⟨'a', .migrated⟩] ⟨0, none⟩
            ['a', 'b', ' ', 'c']).1)[i]? = some pr →
        isWs pr.1 = true →
        ∀ q,
          emittedClassOfNearestNonWs
            (classifyChars [⟨'a', .migrated⟩] ⟨0, none⟩
              ['a', 'b', ' ', 'c']).1 i = some q →
          pr.2 = q) := by
  intro h
  have h2 := h 2 (' ', some .migrated) (by decide) (by decide) none (by decide)
  simp at h2

theorem classifyChars_ws_get (tagged : List TaggedChar) (st : AnnState)
    (chars : List Char) (i : Nat) (c : Char)
    (h1 : chars[i]? = some c) (h2 : isWs c = true) :
    ((classifyChars tagged st chars).1)[i]? =
      some (c, (classifyChars tagged st (chars.take i)).2.lastCssClass) := by
  induction chars generalizing st i with
  | nil => simp at h1
  | cons ch rest ih =>
    cases i with
    | zero =>
      rw [List.getElem?_cons_zero] at h1
      have hc := Option.some.inj h1
      subst hc
      show ((ch, (classifyChar tagged st ch).1) ::
        (classifyChars tagged (classifyChar tagged st ch).2 rest).1)[0]? = _
      rw [classifyChar_ws tagged st ch h2]
      simp [classifyChars]
    | succ j =>
      rw [List.getElem?_cons_succ] at h1
      show ((ch, (classifyChar tagged st ch).1) ::
        (classifyChars tagged (classifyChar tagged st ch).2 rest).1)[j + 1]? =
        _
      rw [List.getElem?_cons_succ]
      rw [ih (classifyChar tagged st ch).2 j h1]
      rfl

theorem classifyChar_match (tagged : List TaggedChar) (st : AnnState)
    (tc : TaggedChar) (h1 : tagged[st.charPtr]? = some tc)
    (h3 : isWs tc.char = false) :
    classifyChar tagged st tc.char =
      (some tc.cssClass, ⟨st.charPtr + 1, some tc.cssClass⟩) := by
  rw [classifyChar, if_neg (by simp [h3])]
  simp only [h1]
  simp

/-- C7, amended: a whitespace character is classified with `lastCssClass` of
the state reached after the preceding prefix — the class of the most recent
non-whitespace character that successfully matched the tagged stream (`none`
if there is none); matching updates `lastCssClass`, while whitespace and
mismatching characters leave the state (including `lastCssClass`)
untouched. -/
theorem whitespace_inherits_last_matched :
    (∀ (tagged : List TaggedChar) (st : AnnState) (c : Char),
        isWs c = true → classifyChar tagged st c = (st.lastCssClass, st)) ∧
    (∀ (tagged : List TaggedChar) (st : AnnState) (chars : List Char)
        (i : Nat) (c : Char), chars[i]? = some c → isWs c = true →
        ((classifyChars tagged st chars).1)[i]? =
          some (c,
            (classifyChars tagged st (chars.take i)).2.lastCssClass)) ∧
    (∀ (tagged : List TaggedChar) (st : AnnState) (tc : TaggedChar),
        tagged[st.charPtr]? = some tc → isWs tc.char = false →
        (classifyChar tagged st tc.char).2 =
          ⟨st.charPtr + 1, some tc.cssClass⟩) ∧
    (∀ (tagged : List TaggedChar) (st : AnnState) (c : Char),
        isWs c = false →
        (∀ tc, tagged[st.charPtr]? = some tc → c ≠ tc.char) →
        (classifyChar tagged st c).2 = st) := by
  refine ⟨classifyChar_ws, classifyChars_ws_get, ?_, ?_⟩
  · intro tagged st tc h1 h3
    rw [classifyChar_match tagged st tc h1 h3]
  · intro tagged st c hws hmis
    rw [classifyChar_mismatch tagged st c hws hmis]

/-- Witness for the amended C7 theorem: in "a b", the space inherits the
matched class of 'a'. -/
theorem whitespace_inherits_last_matched_witness :
    (['a', ' ', 'b'] : List Char)[1]? = some ' ' ∧
    isWs ' ' = true ∧
    ((classifyChars [⟨'a', .migrated⟩] ⟨0, none⟩ ['a', ' ', 'b']).1)[1]? =
      some (' ',
        (classifyChars [⟨'a', .migrated⟩] ⟨0, none⟩
          (['a', ' ', 'b'].take 1)).2.lastCssClass) := by
  refine ⟨by decide, by decide, ?_⟩
  exact whitespace_inherits_last_matched.2.1
    [⟨'a', .migrated⟩] ⟨0, none⟩ ['a', ' ', 'b'] 1 ' ' (by decide) (by decide)

/-! ## SyncCoordinator (`SyncPreviewContainer`, listed in docs/API.md) —
claims C8, C9

The coordinator's mutable session state and its message handlers, with the
messages it posts to the two surfaces collected as `(destination, message)`
events in order. -/

inductive OutMsg
  | syncEnable (sideId : Side)
  | syncDisable
  | measureBlocks
  | setSpacers (spacers : List (Nat × Int))
  | clearSpacers
  | scrollTo (scrollTop : Int)
  deriving Repr, DecidableEq

inductive InMsg
  | blockMeasurements (sideId : Side) (blocks : List BlockMeasurement)
  | scrollUpdate (sideId : Side) (scrollTop : Int)
  deriving Repr, DecidableEq

structure CoordState where
  syncEnabled : Bool
  pendingSource : Option (List BlockMeasurement)
  pendingTarget : Option (List BlockMeasurement)
  lastScrollRelay : Int
  deriving Repr, DecidableEq

/-- `tryApplyAlignment`: once both sides have reported, run the engine, post
    one set-spacers per side and clear the buffer; otherwise do nothing. -/
def tryApplyAlignment (st : CoordState) : CoordState × List (Side × OutMsg) :=
  match st.pendingSource, st.pendingTarget with
  | some source, some target =>
    let r := computeAlignment source target
    ({ st with pendingSource := none, pendingTarget := none },
     [(.source, .setSpacers r.sourceSpacers),
      (.target, .setSpacers r.targetSpacers)])
  | _, _ => (st, [])

/-- `handleMessage`: store a measurements report in its side's buffer slot
    and try to align (regardless of the enabled flag); relay scroll updates
    to the opposite side when enabled, throttled to one per 50ms. -/
def handleMessage (st : CoordState) (now : Int) :
    InMsg → CoordState × List (Side × OutMsg)
  | .blockMeasurements sideId blocks =>
    let st1 :=
      match sideId with
      | .source => { st with pendingSource := some blocks }
      | .target => { st with pendingTarget := some blocks }
    tryApplyAlignment st1
  | .scrollUpdate sideId scrollTop =>
    if st.syncEnabled then
      if now - st.lastScrollRelay < 50 then (st, [])
      else
        ({ st with lastScrollRelay := now },
         [((match sideId with
            | .source => Side.target
            | .target => Side.source), .scrollTo scrollTop)])
    else (st, [])

/-- `enableSync`: flag on, identify both surfaces, then (after the settle
    delay) request measurements from both. -/
def enableSync (st : CoordState) : CoordState × List (Side × OutMsg) :=
  ({ st with syncEnabled := true },
   [(.source, .syncEnable .source), (.target, .syncEnable .target),
    (.source, .measureBlocks), (.target, .measureBlocks)])

/-- `disableSync`: flag off, tell both surfaces to disable and clear
    spacers.  The pending-measurement buffer is left untouched. -/
def disableSync (st : CoordState) : CoordState × List (Side × OutMsg) :=
  ({ st with syncEnabled := false },
   [(.source, .syncDisable), (.target, .syncDisable),
    (.source, .clearSpacers), (.target, .clearSpacers)])

def countSetSpacers (out : List (Side × OutMsg)) : Nat :=
  (out.filter (fun pr =>
    match pr.2 with
    | .setSpacers _ => true
    | _ => false)).length

/-- C8: starting from an empty measurement buffer, after enable is sent to
both surfaces and exactly one measurements report per side has arrived,
exactly one set-spacers message is sent to each side (exactly the engine's
two results, one per destination) and the buffer is cleared; the first
report alone triggers nothing, and a duplicate report for the same side
before the other side has reported triggers no alignment run either. -/
theorem sync_alignment_once_per_cycle (st0 : CoordState)
    (src tgt src2 : List BlockMeasurement) (n1 n2 n3 : Int)
    (hs : st0.pendingSource = none) (ht : st0.pendingTarget = none) :
    countSetSpacers
      (handleMessage (enableSync st0).1 n1
        (.blockMeasurements .source src)).2 = 0 ∧
    ((handleMessage
        (handleMessage (enableSync st0).1 n1
          (.blockMeasurements .source src)).1 n2
        (.blockMeasurements .target tgt)).2 =
      [(.source, .setSpacers (computeAlignment src tgt).sourceSpacers),
       (.target, .setSpacers (computeAlignment src tgt).targetSpacers)] ∧
     (handleMessage
        (handleMessage (enableSync st0).1 n1
          (.blockMeasurements .source src)).1 n2
        (.blockMeasurements .target tgt)).1.pendingSource = none ∧
     (handleMessage
        (handleMessage (enableSync st0).1 n1
          (.blockMeasurements .source src)).1 n2
        (.blockMeasurements .target tgt)).1.pendingTarget = none) ∧
    countSetSpacers
      (handleMessage
        (handleMessage (enableSync st0).1 n1
          (.blockMeasurements .source src)).1 n3
        (.blockMeasurements .source src2)).2 = 0 := by
  simp only [handleMessage, enableSync, tryApplyAlignment, hs, ht]
  exact ⟨by trivial, ⟨by trivial, by trivial, by trivial⟩, by trivial⟩

/-- Witness for C8 at a concrete initial state and concrete reports. -/
theorem sync_alignment_once_per_cycle_witness :
    (⟨false, none, none, 0⟩ : CoordState).pendingSource = none ∧
    (⟨false, none, none, 0⟩ : CoordState).pendingTarget = none ∧
    countSetSpacers
      (handleMessage (enableSync ⟨false, none, none, 0⟩).1 0
        (.blockMeasurements .source [⟨0, 0, 0, true, ['A']⟩])).2 = 0 ∧
    (handleMessage
        (handleMessage (enableSync ⟨false, none, none, 0⟩).1 0
          (.blockMeasurements .source [⟨0, 0, 0, true, ['A']⟩])).1 0
        (.blockMeasurements .target [⟨0, 10, 0, true, ['A']⟩])).2 =
      [(.source, .setSpacers
          (computeAlignment [⟨0, 0, 0, true, ['A']⟩]
            [⟨0, 10, 0, true, ['A']⟩]).sourceSpacers),
       (.target, .setSpacers
          (computeAlignment [⟨0, 0, 0, true, ['A']⟩]
            [⟨0, 10, 0, true, ['A']⟩]).targetSpacers)] := by
  have h := sync_alignment_once_per_cycle (⟨false, none, none, 0⟩ : CoordState)
    [⟨0, 0, 0, true, ['A']⟩] [⟨0, 10, 0, true, ['A']⟩] [] 0 0 0 rfl rfl
  exact ⟨rfl, rfl, h.1, h.2.1.1⟩

/-- C9, counterexample: deactivation does NOT reset the measurement buffer.
After the source side has reported and sync is then disabled, the buffered
source report survives, and a stale, late-arriving target report still
triggers an alignment run (two set-spacers messages) in the disabled
state. -/
theorem disableSync_stale_leak_counterexample :
    (disableSync
        (handleMessage (enableSync ⟨false, none, none, 0⟩).1 0
          (.blockMeasurements .source
            [⟨0, 0, 0, true, ['A']⟩])).1).1.pendingSource =
      some [⟨0, 0, 0, true, ['A']⟩] ∧
    countSetSpacers
      (handleMessage
        (disableSync
          (handleMessage (enableSync ⟨false, none, none, 0⟩).1 0
            (.blockMeasurements .source
              [⟨0, 0, 0, true, ['A']⟩])).1).1 0
        (.blockMeasurements .target [⟨0, 10, 0, true, ['A']⟩])).2 = 2 := by
  constructor
  · rfl
  · rfl

/-- C9, amended: deactivating sync from any state sends a disable
instruction plus a clear-spacers instruction to both surfaces and turns the
enabled flag off, but leaves the measurement buffer untouched; consequently
a buffered report survives deactivation, and a stale, late-arriving report
for the other side still triggers an alignment run. -/
theorem disableSync_behavior (st : CoordState)
    (srcBlocks tgtBlocks : List BlockMeasurement) (n : Int)
    (hbuf : st.pendingSource = some srcBlocks) :
    (disableSync st).2 =
      [(.source, .syncDisable), (.target, .syncDisable),
       (.source, .clearSpacers), (.target, .clearSpacers)] ∧
    (disableSync st).1.syncEnabled = false ∧
    (disableSync st).1.pendingSource = st.pendingSource ∧
    (disableSync st).1.pendingTarget = st.pendingTarget ∧
    (handleMessage (disableSync st).1 n
        (.blockMeasurements .target tgtBlocks)).2 =
      [(.source, .setSpacers
          (computeAlignment srcBlocks tgtBlocks).sourceSpacers),
       (.target, .setSpacers
          (computeAlignment srcBlocks tgtBlocks).targetSpacers)] := by
  refine ⟨rfl, rfl, rfl, rfl, ?_⟩
  simp only [handleMessage, disableSync, tryApplyAlignment, hbuf]

/-- Witness for the amended C9 theorem at a concrete buffered state. -/
theorem disableSync_behavior_witness :
    (⟨true, some [⟨0, 0, 0, true, ['A']⟩], none, 0⟩ : CoordState).pendingSource =
      some [⟨0, 0, 0, true, ['A']⟩] ∧
    (handleMessage
        (disableSync
          (⟨true, some [⟨0, 0, 0, true, ['A']⟩], none, 0⟩ : CoordState)).1 0
        (.blockMeasurements .target [⟨0, 10, 0, true, ['A']⟩])).2 =
      [(.source, .setSpacers
          (computeAlignment [⟨0, 0, 0, true, ['A']⟩]
            [⟨0, 10, 0, true, ['A']⟩]).sourceSpacers),
       (.target, .setSpacers
          (computeAlignment [⟨0, 0, 0, true, ['A']⟩]
            [⟨0, 10, 0, true, ['A']⟩]).targetSpacers)] := by
  have h := disableSync_behavior
    (⟨true, some [⟨0, 0, 0, true, ['A']⟩], none, 0⟩ : CoordState)
    [⟨0, 0, 0, true, ['A']⟩] [⟨0, 10, 0, true, ['A']⟩] 0 rfl
  exact ⟨rfl, h.2.2.2.2⟩

end ContentCheck
